import Mathlib

/-!
Verification model of the transaction engine repository.

The core consists of two Rust modules:
* `src/account.rs` — the account ledger (`Account`, `Operation`, `Account::execute`
  and the five balance operations);
* `src/engine.rs` — the transaction engine (`Engine`, `Engine::process`,
  the accounts map, the transaction history map and the dispute set).

Modelling conventions:
* `rust_decimal::Decimal` is modelled as a sign-and-magnitude fixed-point number
  in units of `10^-4` (the data model fixes 4 fractional digits): `mag` is the
  magnitude in those units and `neg` is the sign flag, so a negative zero
  (`mag = 0`, `neg = true`) is distinct from plain zero, exactly as the sign
  flag of `rust_decimal` is.  `checked_add` fails when the magnitude of the
  result exceeds the 96-bit mantissa bound `maxMantissa`, abstracting the
  overflow detection of `rust_decimal::Decimal::checked_add`; the unchecked
  `+=` and `-=` of the source are modelled as the total functions `add`/`sub`.
* `HashMap` is modelled as an association list (`mget`/`mset`), `HashSet` as a
  duplicate-free list (`scontains`/`sinsert`/`sremove`).
* A Rust method mutating `&mut self` and returning `Result<()>` is modelled as
  a function returning the pair of the `Except` result and the new value, so
  that mutations performed before a failure (such as the account lazily
  created by `get_account`, or the first field assignment of `deposit`) are
  kept, exactly as in the source.
* The distinct `anyhow!` messages of the source are modelled one-to-one by the
  constructors of `EngineErr`.
-/

namespace TxEngine

/-- Maximum magnitude of a decimal: the 96-bit mantissa bound of
`rust_decimal` (its `Decimal::MAX` mantissa), here read at scale 4. -/
def maxMantissa : Nat := 2 ^ 96 - 1

/-- Model of `rust_decimal::Decimal` as a scale-4 fixed-point number:
`mag` is the magnitude in units of `10^-4`, `neg` the sign flag.
The value represented is `(if neg then -mag else mag) * 10^-4`. -/
structure Decimal where
  mag : Nat
  neg : Bool
deriving DecidableEq

/-- Value of a decimal in units of `10^-4`. -/
def Decimal.toInt (d : Decimal) : Int :=
  if d.neg then -(d.mag : Int) else (d.mag : Int)

/-- Build a decimal from a value in units of `10^-4`, with canonical sign
(arithmetic results of `rust_decimal` carry a positive sign on zero). -/
def Decimal.ofInt (i : Int) : Decimal :=
  if i < 0 then ⟨i.natAbs, true⟩ else ⟨i.natAbs, false⟩

/-- Model of `Decimal::is_sign_negative`: reads the sign flag, not the value,
so it is `true` on a negative zero. -/
def Decimal.is_sign_negative (d : Decimal) : Bool := d.neg

/-- Model of `Decimal::ZERO`. -/
def Decimal.zero : Decimal := ⟨0, false⟩

/-- A zero with the negative sign flag set (for instance parsed from `-0`). -/
def Decimal.negZero : Decimal := ⟨0, true⟩

/-- Whether a decimal is within the representable magnitude bound. -/
def Decimal.InRange (d : Decimal) : Prop := d.mag ≤ maxMantissa

instance (d : Decimal) : Decidable (Decimal.InRange d) :=
  inferInstanceAs (Decidable (d.mag ≤ maxMantissa))

/-- Model of `Decimal::checked_add`: fails when the result magnitude exceeds
the mantissa bound. -/
def Decimal.checked_add (a b : Decimal) : Option Decimal :=
  let s := a.toInt + b.toInt
  if s.natAbs ≤ maxMantissa then some (Decimal.ofInt s) else none

/-- Model of the unchecked `+` of `rust_decimal` (used by `+=` in the source). -/
def Decimal.add (a b : Decimal) : Decimal := Decimal.ofInt (a.toInt + b.toInt)

/-- Model of the unchecked `-` of `rust_decimal` (used by `-=` in the source). -/
def Decimal.sub (a b : Decimal) : Decimal := Decimal.ofInt (a.toInt - b.toInt)

@[simp]
theorem Decimal.toInt_ofInt (i : Int) : (Decimal.ofInt i).toInt = i := by
  by_cases h : i < 0
  · have he : Decimal.ofInt i = ⟨i.natAbs, true⟩ := by simp [Decimal.ofInt, h]
    rw [he]
    show -(i.natAbs : Int) = i
    omega
  · have he : Decimal.ofInt i = ⟨i.natAbs, false⟩ := by simp [Decimal.ofInt, h]
    rw [he]
    show (i.natAbs : Int) = i
    omega

theorem Decimal.toInt_nonneg_of_not_neg (d : Decimal) (h : d.neg = false) :
    0 ≤ d.toInt := by
  unfold Decimal.toInt
  simp [h]

theorem Decimal.toInt_zero : Decimal.zero.toInt = 0 := rfl

/-- Error taxonomy, one constructor per distinct `anyhow!` message of the
source (`account.rs` and `engine.rs`). -/
inductive EngineErr where
  /-- Message `Account is locked`. -/
  | AccountLocked
  /-- Message `Amount must be non-negative`. -/
  | InvalidAmount
  /-- Message `Overflow`. -/
  | Overflow
  /-- Message `Insufficient funds`. -/
  | InsufficientFunds
  /-- Message `Insufficient held funds`. -/
  | InsufficientHeldFunds
  /-- Message `Missing amount`. -/
  | MissingAmount
  /-- Message `Transaction already under dispute`. -/
  | AlreadyDisputed
  /-- Message `Transaction not under dispute`. -/
  | NotDisputed
  /-- Message `Transaction not found`. -/
  | TransactionNotFound
  /-- Message `Transaction does not belong to client`. -/
  | ClientMismatch
  /-- Message `Unknown command`. -/
  | UnknownCommand
deriving DecidableEq

/-- Model of `Result<()>` from the source. -/
abbrev Res := Except EngineErr Unit

instance : DecidableEq Res := fun a b => by
  cases a <;> cases b
  case error.error e1 e2 =>
    exact match decEq e1 e2 with
    | isTrue h => isTrue (by rw [h])
    | isFalse h => isFalse (fun hc => h (by cases hc; rfl))
  case ok.ok u1 u2 => exact isTrue (by cases u1; cases u2; rfl)
  all_goals exact isFalse (fun hc => Except.noConfusion hc)

/-- Model of `account.rs` `enum Operation`. -/
inductive Operation where
  | Deposit
  | Withdraw
  | Dispute
  | Resolve
  | Chargeback
deriving DecidableEq

/-- Model of `account.rs` `struct Account`. -/
structure Account where
  id : Nat
  locked : Bool
  total : Decimal
  available : Decimal
  held : Decimal
deriving DecidableEq

/-- Model of `Account::new`. -/
def Account.new (id : Nat) : Account :=
  ⟨id, false, Decimal.zero, Decimal.zero, Decimal.zero⟩

/-- Model of `Account::deposit`: `total` is assigned first, so if the second
`checked_add` fails the new `total` is kept, exactly as in the source. -/
def Account.deposit (a : Account) (amount : Decimal) : Res × Account :=
  match a.total.checked_add amount with
  | none => (.error .Overflow, a)
  | some t =>
    let a1 := { a with total := t }
    match a1.available.checked_add amount with
    | none => (.error .Overflow, a1)
    | some v => (.ok (), { a1 with available := v })

/-- Model of `Account::withdraw` (guard `amount > self.available`, then the
unchecked `-=` on `total` and `available`). -/
def Account.withdraw (a : Account) (amount : Decimal) : Res × Account :=
  if a.available.toInt < amount.toInt then (.error .InsufficientFunds, a)
  else (.ok (), { a with total := a.total.sub amount,
                         available := a.available.sub amount })

/-- Model of `Account::dispute` (guard `amount > self.available`, then
`held += amount`, `available -= amount`). -/
def Account.dispute (a : Account) (amount : Decimal) : Res × Account :=
  if a.available.toInt < amount.toInt then (.error .InsufficientFunds, a)
  else (.ok (), { a with held := a.held.add amount,
                         available := a.available.sub amount })

/-- Model of `Account::resolve` (guard `amount > self.held`, then
`available += amount`, `held -= amount`). -/
def Account.resolve (a : Account) (amount : Decimal) : Res × Account :=
  if a.held.toInt < amount.toInt then (.error .InsufficientHeldFunds, a)
  else (.ok (), { a with available := a.available.add amount,
                         held := a.held.sub amount })

/-- Model of `Account::chargeback` (guard `amount > self.held`, then
`total -= amount`, `held -= amount`, `locked = true`). -/
def Account.chargeback (a : Account) (amount : Decimal) : Res × Account :=
  if a.held.toInt < amount.toInt then (.error .InsufficientHeldFunds, a)
  else (.ok (), { a with total := a.total.sub amount,
                         held := a.held.sub amount,
                         locked := true })

/-- Model of `Account::execute`: the locked check, then the sign check, then
dispatch on the operation. -/
def Account.execute (a : Account) (op : Operation) (amount : Decimal) :
    Res × Account :=
  if a.locked then (.error .AccountLocked, a)
  else if amount.is_sign_negative then (.error .InvalidAmount, a)
  else match op with
    | .Deposit => a.deposit amount
    | .Withdraw => a.withdraw amount
    | .Dispute => a.dispute amount
    | .Resolve => a.resolve amount
    | .Chargeback => a.chargeback amount

/-- Lookup in an association list, modelling `HashMap::get`. -/
def mget {α : Type} (l : List (Nat × α)) (k : Nat) : Option α :=
  match l with
  | [] => none
  | (k2, v) :: rest => if k2 = k then some v else mget rest k

/-- Insert or overwrite in an association list, modelling `HashMap::insert`
(and the write through the mutable reference of `entry().or_insert()`). -/
def mset {α : Type} (l : List (Nat × α)) (k : Nat) (v : α) : List (Nat × α) :=
  match l with
  | [] => [(k, v)]
  | (k2, v2) :: rest => if k2 = k then (k, v) :: rest else (k2, v2) :: mset rest k v

/-- Membership test on a list of keys, modelling `HashSet::contains`. -/
def scontains (l : List Nat) (t : Nat) : Bool :=
  match l with
  | [] => false
  | x :: rest => x = t || scontains rest t

/-- Insertion into a set, modelling `HashSet::insert`. -/
def sinsert (l : List Nat) (t : Nat) : List Nat :=
  if scontains l t then l else t :: l

/-- Removal from a set, modelling `HashSet::remove`. -/
def sremove (l : List Nat) (t : Nat) : List Nat :=
  match l with
  | [] => []
  | x :: rest => if x = t then sremove rest t else x :: sremove rest t

/-- Model of `deser.rs` `struct Record` (client ids and tx ids as `Nat`). -/
structure Record where
  command : String
  client : Nat
  tx : Nat
  amount : Option Decimal
deriving DecidableEq

/-- Model of `engine.rs` `struct Engine`. -/
structure Engine where
  accounts : List (Nat × Account)
  tx_record : List (Nat × (Nat × Decimal))
  dispute_record : List Nat
deriving DecidableEq

/-- Model of `Engine::new`. -/
def Engine.new : Engine := ⟨[], [], []⟩

/-- Model of the lookup part of `Engine::get_account` (`entry().or_insert()`):
the existing account for the id, or a fresh `Account::new`.  The insertion
performed by `or_insert` is modelled by the `mset` write-back at each use
site in `process`. -/
def Engine.get_account (e : Engine) (client : Nat) : Account :=
  (mget e.accounts client).getD (Account.new client)

/-- Model of `Engine::register_transaction`. -/
def Engine.register_transaction (e : Engine) (tx client : Nat) (amount : Decimal) :
    Engine :=
  { e with tx_record := mset e.tx_record tx (client, amount) }

/-- Model of `Engine::process`.  The account written back into the accounts
map is the one returned by `execute`, whether or not `execute` succeeded,
mirroring the in-place mutation through `get_account` in the source; the
history insertion (`register_transaction`) and the dispute-set updates only
happen after a successful `execute`, as in the source. -/
def Engine.process (e : Engine) (r : Record) : Res × Engine :=
  if r.command = "deposit" then
    match r.amount with
    | none => (.error .MissingAmount, e)
    | some amount =>
      let pr := (e.get_account r.client).execute .Deposit amount
      match pr.1 with
      | .error err => (.error err, { e with accounts := mset e.accounts r.client pr.2 })
      | .ok _ =>
        (.ok (), Engine.register_transaction
          { e with accounts := mset e.accounts r.client pr.2 } r.tx r.client amount)
  else if r.command = "withdrawal" then
    match r.amount with
    | none => (.error .MissingAmount, e)
    | some amount =>
      let pr := (e.get_account r.client).execute .Withdraw amount
      match pr.1 with
      | .error err => (.error err, { e with accounts := mset e.accounts r.client pr.2 })
      | .ok _ => (.ok (), { e with accounts := mset e.accounts r.client pr.2 })
  else if r.command = "dispute" then
    if scontains e.dispute_record r.tx then (.error .AlreadyDisputed, e)
    else
      match mget e.tx_record r.tx with
      | none => (.error .TransactionNotFound, e)
      | some (client_id, amount) =>
        if client_id ≠ r.client then (.error .ClientMismatch, e)
        else
          let pr := (e.get_account r.client).execute .Dispute amount
          match pr.1 with
          | .error err => (.error err, { e with accounts := mset e.accounts r.client pr.2 })
          | .ok _ =>
            (.ok (), { e with accounts := mset e.accounts r.client pr.2,
                              dispute_record := sinsert e.dispute_record r.tx })
  else if r.command = "resolve" then
    if scontains e.dispute_record r.tx = false then (.error .NotDisputed, e)
    else
      match mget e.tx_record r.tx with
      | none => (.error .TransactionNotFound, e)
      | some (client_id, amount) =>
        if client_id ≠ r.client then (.error .ClientMismatch, e)
        else
          let pr := (e.get_account r.client).execute .Resolve amount
          match pr.1 with
          | .error err => (.error err, { e with accounts := mset e.accounts r.client pr.2 })
          | .ok _ =>
            (.ok (), { e with accounts := mset e.accounts r.client pr.2,
                              dispute_record := sremove e.dispute_record r.tx })
  else if r.command = "chargeback" then
    if scontains e.dispute_record r.tx = false then (.error .NotDisputed, e)
    else
      match mget e.tx_record r.tx with
      | none => (.error .TransactionNotFound, e)
      | some (client_id, amount) =>
        if client_id ≠ r.client then (.error .ClientMismatch, e)
        else
          let pr := (e.get_account r.client).execute .Chargeback amount
          match pr.1 with
          | .error err => (.error err, { e with accounts := mset e.accounts r.client pr.2 })
          | .ok _ =>
            (.ok (), { e with accounts := mset e.accounts r.client pr.2,
                              dispute_record := sremove e.dispute_record r.tx })
  else (.error .UnknownCommand, e)

/-- Process a sequence of records in input order, keeping the engine state
across failures (the engine keeps running after any error). -/
def Engine.processAll (e : Engine) (rs : List Record) : Engine :=
  match rs with
  | [] => e
  | r :: rest => Engine.processAll (e.process r).2 rest

/-! Lemmas about the association-list map and the set model. -/

theorem mget_mset_self {α : Type} (l : List (Nat × α)) (k : Nat) (v : α) :
    mget (mset l k v) k = some v := by
  induction l with
  | nil => simp [mget, mset]
  | cons p rest ih =>
    obtain ⟨k2, v2⟩ := p
    by_cases h : k2 = k <;> simp [mget, mset, h, ih]

theorem mget_mset_of_ne {α : Type} (l : List (Nat × α)) (k k2 : Nat) (v : α)
    (h : k ≠ k2) : mget (mset l k v) k2 = mget l k2 := by
  induction l with
  | nil => simp [mget, mset, h]
  | cons p rest ih =>
    obtain ⟨k3, v3⟩ := p
    by_cases h3 : k3 = k
    · subst h3
      simp [mget, mset, h]
    · simp only [mset, if_neg h3]
      by_cases h4 : k3 = k2 <;> simp [mget, h4, ih]

theorem isSome_mget_mset {α : Type} (l : List (Nat × α)) (k k2 : Nat) (v : α)
    (h : (mget l k2).isSome = true) : (mget (mset l k v) k2).isSome = true := by
  by_cases he : k = k2
  · subst he
    simp [mget_mset_self]
  · rw [mget_mset_of_ne l k k2 v he]
    exact h

theorem mget_mset_cases {α : Type} (l : List (Nat × α)) (k k2 : Nat) (v v2 : α)
    (h : mget (mset l k v) k2 = some v2) :
    (k2 = k ∧ v2 = v) ∨ mget l k2 = some v2 := by
  by_cases he : k = k2
  · subst he
    rw [mget_mset_self] at h
    exact Or.inl ⟨rfl, (Option.some_injective _ h).symm⟩
  · rw [mget_mset_of_ne l k k2 v he] at h
    exact Or.inr h

theorem mem_of_mget_eq_some {α : Type} (l : List (Nat × α)) (k : Nat) (v : α)
    (h : mget l k = some v) : (k, v) ∈ l := by
  induction l with
  | nil => simp [mget] at h
  | cons p rest ih =>
    obtain ⟨k2, v2⟩ := p
    by_cases he : k2 = k
    · subst he
      simp only [mget, if_pos rfl] at h
      cases h
      exact List.mem_cons_self _ _
    · simp only [mget, if_neg he] at h
      exact List.mem_cons_of_mem _ (ih h)

theorem mem_mset {α : Type} (l : List (Nat × α)) (k : Nat) (v : α) (p : Nat × α)
    (h : p ∈ mset l k v) : p = (k, v) ∨ p ∈ l := by
  induction l with
  | nil => simpa [mset] using h
  | cons q rest ih =>
    obtain ⟨k2, v2⟩ := q
    by_cases he : k2 = k
    · subst he
      simp only [mset, if_pos rfl] at h
      rcases List.mem_cons.mp h with h | h
      · exact Or.inl h
      · exact Or.inr (List.mem_cons_of_mem _ h)
    · simp only [mset, if_neg he] at h
      rcases List.mem_cons.mp h with h | h
      · exact Or.inr (by simp [h])
      · rcases ih h with h | h
        · exact Or.inl h
        · exact Or.inr (List.mem_cons_of_mem _ h)

theorem scontains_sinsert_self (l : List Nat) (t : Nat) :
    scontains (sinsert l t) t = true := by
  unfold sinsert
  by_cases h : scontains l t <;> simp [scontains, h]

theorem scontains_of_sinsert (l : List Nat) (t t2 : Nat)
    (h : scontains (sinsert l t) t2 = true) :
    t2 = t ∨ scontains l t2 = true := by
  unfold sinsert at h
  by_cases hc : scontains l t
  · rw [if_pos hc] at h
    exact Or.inr h
  · rw [if_neg hc] at h
    simp only [scontains, Bool.or_eq_true, decide_eq_true_eq] at h
    rcases h with h | h
    · exact Or.inl h.symm
    · exact Or.inr h

theorem scontains_of_sremove (l : List Nat) (t t2 : Nat)
    (h : scontains (sremove l t) t2 = true) : scontains l t2 = true := by
  induction l with
  | nil => simpa [sremove] using h
  | cons x rest ih =>
    by_cases he : x = t
    · simp only [sremove, if_pos he] at h
      simp [scontains, ih h]
    · simp only [sremove, if_neg he] at h
      simp only [scontains, Bool.or_eq_true, decide_eq_true_eq] at h ⊢
      rcases h with h | h
      · exact Or.inl h
      · exact Or.inr (ih h)

/-! Account-level lemmas. -/

/-- Balance invariant of an account: `total == available + held` and all three
fields non-negative (as values). -/
def AccountInv (a : Account) : Prop :=
  a.total.toInt = a.available.toInt + a.held.toInt ∧
  0 ≤ a.available.toInt ∧ 0 ≤ a.held.toInt ∧ 0 ≤ a.total.toInt

theorem accountInv_new (id : Nat) : AccountInv (Account.new id) := by
  refine ⟨?_, ?_, ?_, ?_⟩ <;> simp [Account.new, Decimal.zero, Decimal.toInt]

theorem execute_locked (a : Account) (op : Operation) (m : Decimal)
    (h : a.locked = true) : a.execute op m = (.error .AccountLocked, a) := by
  simp [Account.execute, h]

theorem execute_neg (a : Account) (op : Operation) (m : Decimal)
    (hl : a.locked = false) (hn : m.is_sign_negative = true) :
    a.execute op m = (.error .InvalidAmount, a) := by
  simp [Account.execute, hl, hn]

theorem execute_run (a : Account) (op : Operation) (m : Decimal)
    (hl : a.locked = false) (hn : m.is_sign_negative = false) :
    a.execute op m = match op with
      | .Deposit => a.deposit m
      | .Withdraw => a.withdraw m
      | .Dispute => a.dispute m
      | .Resolve => a.resolve m
      | .Chargeback => a.chargeback m := by
  simp [Account.execute, hl, hn]

theorem execute_ok_unlocked (a : Account) (op : Operation) (m : Decimal)
    (h : (a.execute op m).1 = .ok ()) :
    a.locked = false ∧ m.is_sign_negative = false := by
  by_cases hl : a.locked
  · rw [execute_locked a op m hl] at h
    exact absurd h (by simp)
  · by_cases hn : m.is_sign_negative
    · rw [execute_neg a op m (by simpa using hl) hn] at h
      exact absurd h (by simp)
    · exact ⟨by simpa using hl, by simpa using hn⟩

theorem deposit_ok_shape (a : Account) (m : Decimal)
    (h : (a.deposit m).1 = .ok ()) :
    (a.deposit m).2.total.toInt = a.total.toInt + m.toInt ∧
    (a.deposit m).2.available.toInt = a.available.toInt + m.toInt ∧
    (a.deposit m).2.held = a.held ∧
    (a.deposit m).2.locked = a.locked ∧
    (a.deposit m).2.id = a.id := by
  unfold Account.deposit at h ⊢
  cases h1 : a.total.checked_add m with
  | none => simp [h1] at h
  | some t =>
    simp only [h1] at h ⊢
    cases h2 : Decimal.checked_add { a with total := t }.available m with
    | none => simp [h2] at h
    | some v =>
      simp only [h2]
      have ht : t.toInt = a.total.toInt + m.toInt := by
        unfold Decimal.checked_add at h1
        by_cases hb : (a.total.toInt + m.toInt).natAbs ≤ maxMantissa
        · simp only [if_pos hb] at h1
          cases h1
          exact Decimal.toInt_ofInt _
        · simp [if_neg hb] at h1
      have hv : v.toInt = a.available.toInt + m.toInt := by
        unfold Decimal.checked_add at h2
        by_cases hb : (a.available.toInt + m.toInt).natAbs ≤ maxMantissa
        · simp only at h2
          rw [if_pos hb] at h2
          cases h2
          exact Decimal.toInt_ofInt _
        · simp only at h2
          rw [if_neg hb] at h2
          exact absurd h2 (by simp)
      refine ⟨ht, hv, ?_, ?_, ?_⟩ <;> trivial

theorem withdraw_ok_shape (a : Account) (m : Decimal)
    (h : (a.withdraw m).1 = .ok ()) :
    m.toInt ≤ a.available.toInt ∧
    (a.withdraw m).2 = { a with total := a.total.sub m,
                                available := a.available.sub m } := by
  unfold Account.withdraw at h ⊢
  by_cases hg : a.available.toInt < m.toInt
  · simp [hg] at h
  · simp only [if_neg hg]
    refine ⟨by omega, ?_⟩
    trivial

theorem dispute_ok_shape (a : Account) (m : Decimal)
    (h : (a.dispute m).1 = .ok ()) :
    m.toInt ≤ a.available.toInt ∧
    (a.dispute m).2 = { a with held := a.held.add m,
                               available := a.available.sub m } := by
  unfold Account.dispute at h ⊢
  by_cases hg : a.available.toInt < m.toInt
  · simp [hg] at h
  · simp only [if_neg hg]
    refine ⟨by omega, ?_⟩
    trivial

theorem resolve_ok_shape (a : Account) (m : Decimal)
    (h : (a.resolve m).1 = .ok ()) :
    m.toInt ≤ a.held.toInt ∧
    (a.resolve m).2 = { a with available := a.available.add m,
                               held := a.held.sub m } := by
  unfold Account.resolve at h ⊢
  by_cases hg : a.held.toInt < m.toInt
  · simp [hg] at h
  · simp only [if_neg hg]
    refine ⟨by omega, ?_⟩
    trivial

theorem chargeback_ok_shape (a : Account) (m : Decimal)
    (h : (a.chargeback m).1 = .ok ()) :
    m.toInt ≤ a.held.toInt ∧
    (a.chargeback m).2 = { a with total := a.total.sub m,
                                  held := a.held.sub m,
                                  locked := true } := by
  unfold Account.chargeback at h ⊢
  by_cases hg : a.held.toInt < m.toInt
  · simp [hg] at h
  · simp only [if_neg hg]
    refine ⟨by omega, ?_⟩
    trivial

/-- A successful first `checked_add` in `deposit` forces the second to
succeed whenever `available ≤ total` and the amount and `available` are
non-negative: this is why `deposit` never partially updates a well-formed
account. -/
theorem checked_add_mono (x y m : Decimal)
    (hx : 0 ≤ x.toInt) (hxy : x.toInt ≤ y.toInt) (hm : 0 ≤ m.toInt)
    (h : (y.checked_add m).isSome = true) : (x.checked_add m).isSome = true := by
  unfold Decimal.checked_add at h ⊢
  by_cases hb : (y.toInt + m.toInt).natAbs ≤ maxMantissa
  · have hb2 : (x.toInt + m.toInt).natAbs ≤ maxMantissa := by omega
    simp [hb2]
  · simp [hb] at h

theorem deposit_inv (a : Account) (m : Decimal)
    (hi : AccountInv a) (hm : 0 ≤ m.toInt) : AccountInv (a.deposit m).2 := by
  obtain ⟨h0, h1, h2, h3⟩ := hi
  unfold Account.deposit
  cases hc1 : a.total.checked_add m with
  | none => exact ⟨h0, h1, h2, h3⟩
  | some t =>
    have hc2 : (Decimal.checked_add { a with total := t }.available m).isSome = true := by
      refine checked_add_mono a.available a.total m h1 (by omega) hm ?_
      simp [hc1]
    cases hc2e : Decimal.checked_add { a with total := t }.available m with
    | none => rw [hc2e] at hc2; simp at hc2
    | some v =>
      simp only [hc2e]
      have ht : t.toInt = a.total.toInt + m.toInt := by
        unfold Decimal.checked_add at hc1
        by_cases hb : (a.total.toInt + m.toInt).natAbs ≤ maxMantissa
        · rw [if_pos hb] at hc1
          cases hc1
          exact Decimal.toInt_ofInt _
        · rw [if_neg hb] at hc1
          exact absurd hc1 (by simp)
      have hv : v.toInt = a.available.toInt + m.toInt := by
        unfold Decimal.checked_add at hc2e
        by_cases hb : (a.available.toInt + m.toInt).natAbs ≤ maxMantissa
        · simp only at hc2e
          rw [if_pos hb] at hc2e
          cases hc2e
          exact Decimal.toInt_ofInt _
        · simp only at hc2e
          rw [if_neg hb] at hc2e
          exact absurd hc2e (by simp)
      refine ⟨?_, ?_, ?_, ?_⟩
      · show t.toInt = v.toInt + a.held.toInt
        rw [ht, hv]
        omega
      · show 0 ≤ v.toInt
        rw [hv]
        omega
      · exact h2
      · show 0 ≤ t.toInt
        rw [ht]
        omega

theorem withdraw_inv (a : Account) (m : Decimal)
    (hi : AccountInv a) (_hm : 0 ≤ m.toInt) : AccountInv (a.withdraw m).2 := by
  obtain ⟨h0, h1, h2, h3⟩ := hi
  unfold Account.withdraw
  by_cases hg : a.available.toInt < m.toInt
  · simpa [hg] using ⟨h0, h1, h2, h3⟩
  · refine ⟨?_, ?_, ?_, ?_⟩ <;>
      simp [hg, Decimal.sub, Decimal.toInt_ofInt] <;> omega

theorem dispute_op_inv (a : Account) (m : Decimal)
    (hi : AccountInv a) (_hm : 0 ≤ m.toInt) : AccountInv (a.dispute m).2 := by
  obtain ⟨h0, h1, h2, h3⟩ := hi
  unfold Account.dispute
  by_cases hg : a.available.toInt < m.toInt
  · simpa [hg] using ⟨h0, h1, h2, h3⟩
  · refine ⟨?_, ?_, ?_, ?_⟩ <;>
      simp [hg, Decimal.sub, Decimal.add, Decimal.toInt_ofInt] <;> omega

theorem resolve_op_inv (a : Account) (m : Decimal)
    (hi : AccountInv a) (hm : 0 ≤ m.toInt) : AccountInv (a.resolve m).2 := by
  obtain ⟨h0, h1, h2, h3⟩ := hi
  unfold Account.resolve
  by_cases hg : a.held.toInt < m.toInt
  · simpa [hg] using ⟨h0, h1, h2, h3⟩
  · refine ⟨?_, ?_, ?_, ?_⟩ <;>
      simp [hg, Decimal.sub, Decimal.add, Decimal.toInt_ofInt] <;> omega

theorem chargeback_op_inv (a : Account) (m : Decimal)
    (hi : AccountInv a) (_hm : 0 ≤ m.toInt) : AccountInv (a.chargeback m).2 := by
  obtain ⟨h0, h1, h2, h3⟩ := hi
  unfold Account.chargeback
  by_cases hg : a.held.toInt < m.toInt
  · simpa [hg] using ⟨h0, h1, h2, h3⟩
  · refine ⟨?_, ?_, ?_, ?_⟩ <;>
      simp [hg, Decimal.sub, Decimal.toInt_ofInt] <;> omega

/-- Whatever the operation, the amount and the outcome, `execute` keeps the
balance invariant (a failing call leaves the account unchanged, and under the
invariant `deposit` never partially updates). -/
theorem execute_inv (a : Account) (op : Operation) (m : Decimal)
    (hi : AccountInv a) : AccountInv (a.execute op m).2 := by
  by_cases hl : a.locked
  · rw [execute_locked a op m hl]
    exact hi
  · by_cases hn : m.is_sign_negative
    · rw [execute_neg a op m (by simpa using hl) hn]
      exact hi
    · rw [execute_run a op m (by simpa using hl) (by simpa using hn)]
      have hm : 0 ≤ m.toInt :=
        Decimal.toInt_nonneg_of_not_neg m (by simpa [Decimal.is_sign_negative] using hn)
      cases op with
      | Deposit => exact deposit_inv a m hi hm
      | Withdraw => exact withdraw_inv a m hi hm
      | Dispute => exact dispute_op_inv a m hi hm
      | Resolve => exact resolve_op_inv a m hi hm
      | Chargeback => exact chargeback_op_inv a m hi hm

/-- The engine-level errors are never produced by `Account::execute`. -/
theorem execute_ne_tnf (a : Account) (op : Operation) (m : Decimal) :
    (a.execute op m).1 ≠ .error .TransactionNotFound := by
  unfold Account.execute Account.deposit Account.withdraw Account.dispute
    Account.resolve Account.chargeback
  by_cases hl : a.locked
  · simp [hl]
  · by_cases hn : m.is_sign_negative
    · simp [hl, hn]
    · cases op <;> simp only [hl, hn, Bool.false_eq_true, if_false, if_neg]
      · cases a.total.checked_add m with
        | none => simp
        | some t =>
          simp only
          cases Decimal.checked_add { a with total := t }.available m <;> simp
      all_goals split <;> simp

/-! Branch characterizations of `Engine.process`, one per path of the source
`match` in `engine.rs`. -/

theorem process_deposit_missing (e : Engine) (r : Record)
    (hc : r.command = "deposit") (ha : r.amount = none) :
    e.process r = (.error .MissingAmount, e) := by
  simp [Engine.process, hc, ha]

theorem process_deposit_err (e : Engine) (r : Record) (m : Decimal) (err : EngineErr)
    (hc : r.command = "deposit") (ha : r.amount = some m)
    (hx : ((e.get_account r.client).execute .Deposit m).1 = .error err) :
    e.process r = (.error err,
      { e with accounts := mset e.accounts r.client ((e.get_account r.client).execute .Deposit m).2 }) := by
  simp [Engine.process, hc, ha, hx]

theorem process_deposit_okk (e : Engine) (r : Record) (m : Decimal)
    (hc : r.command = "deposit") (ha : r.amount = some m)
    (hx : ((e.get_account r.client).execute .Deposit m).1 = .ok ()) :
    e.process r = (.ok (),
      { e with
          accounts := mset e.accounts r.client ((e.get_account r.client).execute .Deposit m).2,
          tx_record := mset e.tx_record r.tx (r.client, m) }) := by
  simp [Engine.process, hc, ha, hx, Engine.register_transaction]

theorem process_withdrawal_missing (e : Engine) (r : Record)
    (hc : r.command = "withdrawal") (ha : r.amount = none) :
    e.process r = (.error .MissingAmount, e) := by
  simp [Engine.process, hc, ha]

theorem process_withdrawal_err (e : Engine) (r : Record) (m : Decimal) (err : EngineErr)
    (hc : r.command = "withdrawal") (ha : r.amount = some m)
    (hx : ((e.get_account r.client).execute .Withdraw m).1 = .error err) :
    e.process r = (.error err,
      { e with accounts := mset e.accounts r.client ((e.get_account r.client).execute .Withdraw m).2 }) := by
  simp [Engine.process, hc, ha, hx]

theorem process_withdrawal_okk (e : Engine) (r : Record) (m : Decimal)
    (hc : r.command = "withdrawal") (ha : r.amount = some m)
    (hx : ((e.get_account r.client).execute .Withdraw m).1 = .ok ()) :
    e.process r = (.ok (),
      { e with accounts := mset e.accounts r.client ((e.get_account r.client).execute .Withdraw m).2 }) := by
  simp [Engine.process, hc, ha, hx]

theorem process_dispute_already (e : Engine) (r : Record)
    (hc : r.command = "dispute") (hd : scontains e.dispute_record r.tx = true) :
    e.process r = (.error .AlreadyDisputed, e) := by
  simp [Engine.process, hc, hd]

theorem process_dispute_notfound (e : Engine) (r : Record)
    (hc : r.command = "dispute") (hd : scontains e.dispute_record r.tx = false)
    (hm : mget e.tx_record r.tx = none) :
    e.process r = (.error .TransactionNotFound, e) := by
  simp [Engine.process, hc, hd, hm]

theorem process_dispute_mismatch (e : Engine) (r : Record) (cid : Nat) (m : Decimal)
    (hc : r.command = "dispute") (hd : scontains e.dispute_record r.tx = false)
    (hm : mget e.tx_record r.tx = some (cid, m)) (hne : cid ≠ r.client) :
    e.process r = (.error .ClientMismatch, e) := by
  simp [Engine.process, hc, hd, hm, hne]

theorem process_dispute_err (e : Engine) (r : Record) (m : Decimal) (err : EngineErr)
    (hc : r.command = "dispute") (hd : scontains e.dispute_record r.tx = false)
    (hm : mget e.tx_record r.tx = some (r.client, m))
    (hx : ((e.get_account r.client).execute .Dispute m).1 = .error err) :
    e.process r = (.error err,
      { e with accounts := mset e.accounts r.client ((e.get_account r.client).execute .Dispute m).2 }) := by
  simp [Engine.process, hc, hd, hm, hx]

theorem process_dispute_okk (e : Engine) (r : Record) (m : Decimal)
    (hc : r.command = "dispute") (hd : scontains e.dispute_record r.tx = false)
    (hm : mget e.tx_record r.tx = some (r.client, m))
    (hx : ((e.get_account r.client).execute .Dispute m).1 = .ok ()) :
    e.process r = (.ok (),
      { e with
          accounts := mset e.accounts r.client ((e.get_account r.client).execute .Dispute m).2,
          dispute_record := sinsert e.dispute_record r.tx }) := by
  simp [Engine.process, hc, hd, hm, hx]

theorem process_resolve_undisputed (e : Engine) (r : Record)
    (hc : r.command = "resolve") (hd : scontains e.dispute_record r.tx = false) :
    e.process r = (.error .NotDisputed, e) := by
  simp [Engine.process, hc, hd]

theorem process_resolve_notfound (e : Engine) (r : Record)
    (hc : r.command = "resolve") (hd : scontains e.dispute_record r.tx = true)
    (hm : mget e.tx_record r.tx = none) :
    e.process r = (.error .TransactionNotFound, e) := by
  simp [Engine.process, hc, hd, hm]

theorem process_resolve_mismatch (e : Engine) (r : Record) (cid : Nat) (m : Decimal)
    (hc : r.command = "resolve") (hd : scontains e.dispute_record r.tx = true)
    (hm : mget e.tx_record r.tx = some (cid, m)) (hne : cid ≠ r.client) :
    e.process r = (.error .ClientMismatch, e) := by
  simp [Engine.process, hc, hd, hm, hne]

theorem process_resolve_err (e : Engine) (r : Record) (m : Decimal) (err : EngineErr)
    (hc : r.command = "resolve") (hd : scontains e.dispute_record r.tx = true)
    (hm : mget e.tx_record r.tx = some (r.client, m))
    (hx : ((e.get_account r.client).execute .Resolve m).1 = .error err) :
    e.process r = (.error err,
      { e with accounts := mset e.accounts r.client ((e.get_account r.client).execute .Resolve m).2 }) := by
  simp [Engine.process, hc, hd, hm, hx]

theorem process_resolve_okk (e : Engine) (r : Record) (m : Decimal)
    (hc : r.command = "resolve") (hd : scontains e.dispute_record r.tx = true)
    (hm : mget e.tx_record r.tx = some (r.client, m))
    (hx : ((e.get_account r.client).execute .Resolve m).1 = .ok ()) :
    e.process r = (.ok (),
      { e with
          accounts := mset e.accounts r.client ((e.get_account r.client).execute .Resolve m).2,
          dispute_record := sremove e.dispute_record r.tx }) := by
  simp [Engine.process, hc, hd, hm, hx]

theorem process_chargeback_undisputed (e : Engine) (r : Record)
    (hc : r.command = "chargeback") (hd : scontains e.dispute_record r.tx = false) :
    e.process r = (.error .NotDisputed, e) := by
  simp [Engine.process, hc, hd]

theorem process_chargeback_notfound (e : Engine) (r : Record)
    (hc : r.command = "chargeback") (hd : scontains e.dispute_record r.tx = true)
    (hm : mget e.tx_record r.tx = none) :
    e.process r = (.error .TransactionNotFound, e) := by
  simp [Engine.process, hc, hd, hm]

theorem process_chargeback_mismatch (e : Engine) (r : Record) (cid : Nat) (m : Decimal)
    (hc : r.command = "chargeback") (hd : scontains e.dispute_record r.tx = true)
    (hm : mget e.tx_record r.tx = some (cid, m)) (hne : cid ≠ r.client) :
    e.process r = (.error .ClientMismatch, e) := by
  simp [Engine.process, hc, hd, hm, hne]

theorem process_chargeback_err (e : Engine) (r : Record) (m : Decimal) (err : EngineErr)
    (hc : r.command = "chargeback") (hd : scontains e.dispute_record r.tx = true)
    (hm : mget e.tx_record r.tx = some (r.client, m))
    (hx : ((e.get_account r.client).execute .Chargeback m).1 = .error err) :
    e.process r = (.error err,
      { e with accounts := mset e.accounts r.client ((e.get_account r.client).execute .Chargeback m).2 }) := by
  simp [Engine.process, hc, hd, hm, hx]

theorem process_chargeback_okk (e : Engine) (r : Record) (m : Decimal)
    (hc : r.command = "chargeback") (hd : scontains e.dispute_record r.tx = true)
    (hm : mget e.tx_record r.tx = some (r.client, m))
    (hx : ((e.get_account r.client).execute .Chargeback m).1 = .ok ()) :
    e.process r = (.ok (),
      { e with
          accounts := mset e.accounts r.client ((e.get_account r.client).execute .Chargeback m).2,
          dispute_record := sremove e.dispute_record r.tx }) := by
  simp [Engine.process, hc, hd, hm, hx]

theorem process_unknown (e : Engine) (r : Record)
    (h1 : r.command ≠ "deposit") (h2 : r.command ≠ "withdrawal")
    (h3 : r.command ≠ "dispute") (h4 : r.command ≠ "resolve")
    (h5 : r.command ≠ "chargeback") :
    e.process r = (.error .UnknownCommand, e) := by
  simp [Engine.process, h1, h2, h3, h4, h5]

/-! Engine-level invariant: every stored account satisfies the balance
invariant, every disputed tx id has a history entry, and every history entry
points at an existing account. -/

def EngineInv (e : Engine) : Prop :=
  (∀ p ∈ e.accounts, AccountInv p.2) ∧
  (∀ t, scontains e.dispute_record t = true → (mget e.tx_record t).isSome = true) ∧
  (∀ t cm, mget e.tx_record t = some cm → (mget e.accounts cm.1).isSome = true)

theorem engineInv_new : EngineInv Engine.new := by
  refine ⟨?_, ?_, ?_⟩
  · intro p hp
    simp [Engine.new] at hp
  · intro t ht
    simp [Engine.new, scontains] at ht
  · intro t cm h
    simp [Engine.new, mget] at h

theorem accountInv_get_account (e : Engine) (c : Nat)
    (h : ∀ p ∈ e.accounts, AccountInv p.2) : AccountInv (e.get_account c) := by
  unfold Engine.get_account
  cases hg : mget e.accounts c with
  | none => simpa using accountInv_new c
  | some a => simpa using h (c, a) (mem_of_mget_eq_some _ _ _ hg)

theorem accountsInv_mset_exec (e : Engine) (c : Nat) (op : Operation) (m : Decimal)
    (h : ∀ p ∈ e.accounts, AccountInv p.2) :
    ∀ p ∈ mset e.accounts c ((e.get_account c).execute op m).2, AccountInv p.2 := by
  intro p hp
  rcases mem_mset _ _ _ _ hp with h1 | h1
  · rw [h1]
    exact execute_inv _ op m (accountInv_get_account e c h)
  · exact h p h1

/-- One `process` call preserves the engine invariant, on every branch,
failing or not. -/
theorem engineInv_process (e : Engine) (r : Record) (h : EngineInv e) :
    EngineInv (e.process r).2 := by
  obtain ⟨h1, h2, h3⟩ := h
  by_cases hc1 : r.command = "deposit"
  · cases ha : r.amount with
    | none =>
      rw [process_deposit_missing e r hc1 ha]
      exact ⟨h1, h2, h3⟩
    | some m =>
      cases hx : ((e.get_account r.client).execute .Deposit m).1 with
      | error err =>
        rw [process_deposit_err e r m err hc1 ha hx]
        refine ⟨accountsInv_mset_exec e r.client .Deposit m h1, h2, ?_⟩
        intro t cm hcm
        exact isSome_mget_mset _ _ _ _ (h3 t cm hcm)
      | ok u =>
        cases u
        rw [process_deposit_okk e r m hc1 ha hx]
        refine ⟨accountsInv_mset_exec e r.client .Deposit m h1, ?_, ?_⟩
        · intro t ht
          exact isSome_mget_mset _ _ _ _ (h2 t ht)
        · intro t cm hcm
          rcases mget_mset_cases _ _ _ _ _ hcm with ⟨hteq, hcmeq⟩ | hold
          · rw [hcmeq]
            simp [mget_mset_self]
          · exact isSome_mget_mset _ _ _ _ (h3 t cm hold)
  · by_cases hc2 : r.command = "withdrawal"
    · cases ha : r.amount with
      | none =>
        rw [process_withdrawal_missing e r hc2 ha]
        exact ⟨h1, h2, h3⟩
      | some m =>
        cases hx : ((e.get_account r.client).execute .Withdraw m).1 with
        | error err =>
          rw [process_withdrawal_err e r m err hc2 ha hx]
          refine ⟨accountsInv_mset_exec e r.client .Withdraw m h1, h2, ?_⟩
          intro t cm hcm
          exact isSome_mget_mset _ _ _ _ (h3 t cm hcm)
        | ok u =>
          cases u
          rw [process_withdrawal_okk e r m hc2 ha hx]
          refine ⟨accountsInv_mset_exec e r.client .Withdraw m h1, h2, ?_⟩
          intro t cm hcm
          exact isSome_mget_mset _ _ _ _ (h3 t cm hcm)
    · by_cases hc3 : r.command = "dispute"
      · by_cases hd : scontains e.dispute_record r.tx
        · rw [process_dispute_already e r hc3 hd]
          exact ⟨h1, h2, h3⟩
        · have hd2 : scontains e.dispute_record r.tx = false := by simpa using hd
          cases hm : mget e.tx_record r.tx with
          | none =>
            rw [process_dispute_notfound e r hc3 hd2 hm]
            exact ⟨h1, h2, h3⟩
          | some cm =>
            obtain ⟨cid, m⟩ := cm
            by_cases hcl : cid = r.client
            · subst hcl
              cases hx : ((e.get_account r.client).execute .Dispute m).1 with
              | error err =>
                rw [process_dispute_err e r m err hc3 hd2 hm hx]
                refine ⟨accountsInv_mset_exec e r.client .Dispute m h1, h2, ?_⟩
                intro t cm2 hcm
                exact isSome_mget_mset _ _ _ _ (h3 t cm2 hcm)
              | ok u =>
                cases u
                rw [process_dispute_okk e r m hc3 hd2 hm hx]
                refine ⟨accountsInv_mset_exec e r.client .Dispute m h1, ?_, ?_⟩
                · intro t ht
                  rcases scontains_of_sinsert _ _ _ ht with heq | hold
                  · rw [heq, hm]
                    simp
                  · exact h2 t hold
                · intro t cm2 hcm
                  exact isSome_mget_mset _ _ _ _ (h3 t cm2 hcm)
            · rw [process_dispute_mismatch e r cid m hc3 hd2 hm hcl]
              exact ⟨h1, h2, h3⟩
      · by_cases hc4 : r.command = "resolve"
        · by_cases hd : scontains e.dispute_record r.tx
          · cases hm : mget e.tx_record r.tx with
            | none =>
              rw [process_resolve_notfound e r hc4 hd hm]
              exact ⟨h1, h2, h3⟩
            | some cm =>
              obtain ⟨cid, m⟩ := cm
              by_cases hcl : cid = r.client
              · subst hcl
                cases hx : ((e.get_account r.client).execute .Resolve m).1 with
                | error err =>
                  rw [process_resolve_err e r m err hc4 hd hm hx]
                  refine ⟨accountsInv_mset_exec e r.client .Resolve m h1, h2, ?_⟩
                  intro t cm2 hcm
                  exact isSome_mget_mset _ _ _ _ (h3 t cm2 hcm)
                | ok u =>
                  cases u
                  rw [process_resolve_okk e r m hc4 hd hm hx]
                  refine ⟨accountsInv_mset_exec e r.client .Resolve m h1, ?_, ?_⟩
                  · intro t ht
                    exact h2 t (scontains_of_sremove _ _ _ ht)
                  · intro t cm2 hcm
                    exact isSome_mget_mset _ _ _ _ (h3 t cm2 hcm)
              · rw [process_resolve_mismatch e r cid m hc4 hd hm hcl]
                exact ⟨h1, h2, h3⟩
          · have hd2 : scontains e.dispute_record r.tx = false := by simpa using hd
            rw [process_resolve_undisputed e r hc4 hd2]
            exact ⟨h1, h2, h3⟩
        · by_cases hc5 : r.command = "chargeback"
          · by_cases hd : scontains e.dispute_record r.tx
            · cases hm : mget e.tx_record r.tx with
              | none =>
                rw [process_chargeback_notfound e r hc5 hd hm]
                exact ⟨h1, h2, h3⟩
              | some cm =>
                obtain ⟨cid, m⟩ := cm
                by_cases hcl : cid = r.client
                · subst hcl
                  cases hx : ((e.get_account r.client).execute .Chargeback m).1 with
                  | error err =>
                    rw [process_chargeback_err e r m err hc5 hd hm hx]
                    refine ⟨accountsInv_mset_exec e r.client .Chargeback m h1, h2, ?_⟩
                    intro t cm2 hcm
                    exact isSome_mget_mset _ _ _ _ (h3 t cm2 hcm)
                  | ok u =>
                    cases u
                    rw [process_chargeback_okk e r m hc5 hd hm hx]
                    refine ⟨accountsInv_mset_exec e r.client .Chargeback m h1, ?_, ?_⟩
                    · intro t ht
                      exact h2 t (scontains_of_sremove _ _ _ ht)
                    · intro t cm2 hcm
                      exact isSome_mget_mset _ _ _ _ (h3 t cm2 hcm)
                · rw [process_chargeback_mismatch e r cid m hc5 hd hm hcl]
                  exact ⟨h1, h2, h3⟩
            · have hd2 : scontains e.dispute_record r.tx = false := by simpa using hd
              rw [process_chargeback_undisputed e r hc5 hd2]
              exact ⟨h1, h2, h3⟩
          · rw [process_unknown e r hc1 hc2 hc3 hc4 hc5]
            exact ⟨h1, h2, h3⟩

theorem engineInv_processAll (e : Engine) (rs : List Record) (h : EngineInv e) :
    EngineInv (e.processAll rs) := by
  induction rs generalizing e with
  | nil => simpa [Engine.processAll] using h
  | cons r rest ih => exact ih _ (engineInv_process e r h)

/-- Every engine state reached from a fresh engine satisfies the invariant. -/
theorem engineInv_reachable (rs : List Record) :
    EngineInv (Engine.new.processAll rs) :=
  engineInv_processAll Engine.new rs engineInv_new

/-! Further small helper lemmas. -/

theorem Decimal.toInt_le_mag (d : Decimal) : d.toInt ≤ (d.mag : Int) := by
  unfold Decimal.toInt
  split <;> omega

theorem Decimal.mag_ofInt (i : Int) : (Decimal.ofInt i).mag = i.natAbs := by
  unfold Decimal.ofInt
  split <;> rfl

/-- On an unlocked account with a non-negative-signed amount, `execute` can
only succeed or fail with one of the three operation-level errors. -/
theorem op_errors (a : Account) (op : Operation) (m : Decimal)
    (hl : a.locked = false) (hn : m.is_sign_negative = false) :
    (a.execute op m).1 = .ok () ∨
    (a.execute op m).1 = .error .Overflow ∨
    (a.execute op m).1 = .error .InsufficientFunds ∨
    (a.execute op m).1 = .error .InsufficientHeldFunds := by
  rw [execute_run a op m hl hn]
  cases op with
  | Deposit =>
    unfold Account.deposit
    cases hc1 : a.total.checked_add m with
    | none => simp
    | some t =>
      simp only
      cases hc2 : Decimal.checked_add { a with total := t }.available m <;> simp
  | Withdraw =>
    unfold Account.withdraw
    by_cases hg : a.available.toInt < m.toInt <;> simp [hg]
  | Dispute =>
    unfold Account.dispute
    by_cases hg : a.available.toInt < m.toInt <;> simp [hg]
  | Resolve =>
    unfold Account.resolve
    by_cases hg : a.held.toInt < m.toInt <;> simp [hg]
  | Chargeback =>
    unfold Account.chargeback
    by_cases hg : a.held.toInt < m.toInt <;> simp [hg]

/-- The accounts map after a `process` call is either untouched or an
`mset` at the client of the record with the outcome of an `execute`. -/
theorem process_accounts_shape (e : Engine) (r : Record) :
    ((e.process r).2).accounts = e.accounts ∨
    ∃ op m, ((e.process r).2).accounts =
      mset e.accounts r.client ((e.get_account r.client).execute op m).2 := by
  by_cases hc1 : r.command = "deposit"
  · cases ha : r.amount with
    | none =>
      rw [process_deposit_missing e r hc1 ha]
      exact Or.inl rfl
    | some m =>
      cases hx : ((e.get_account r.client).execute .Deposit m).1 with
      | error err =>
        rw [process_deposit_err e r m err hc1 ha hx]
        exact Or.inr ⟨.Deposit, m, rfl⟩
      | ok u =>
        cases u
        rw [process_deposit_okk e r m hc1 ha hx]
        exact Or.inr ⟨.Deposit, m, rfl⟩
  · by_cases hc2 : r.command = "withdrawal"
    · cases ha : r.amount with
      | none =>
        rw [process_withdrawal_missing e r hc2 ha]
        exact Or.inl rfl
      | some m =>
        cases hx : ((e.get_account r.client).execute .Withdraw m).1 with
        | error err =>
          rw [process_withdrawal_err e r m err hc2 ha hx]
          exact Or.inr ⟨.Withdraw, m, rfl⟩
        | ok u =>
          cases u
          rw [process_withdrawal_okk e r m hc2 ha hx]
          exact Or.inr ⟨.Withdraw, m, rfl⟩
    · by_cases hc3 : r.command = "dispute"
      · by_cases hd : scontains e.dispute_record r.tx
        · rw [process_dispute_already e r hc3 hd]
          exact Or.inl rfl
        · have hd2 : scontains e.dispute_record r.tx = false := by simpa using hd
          cases hm : mget e.tx_record r.tx with
          | none =>
            rw [process_dispute_notfound e r hc3 hd2 hm]
            exact Or.inl rfl
          | some cm =>
            obtain ⟨cid, m⟩ := cm
            by_cases hcl : cid = r.client
            · subst hcl
              cases hx : ((e.get_account r.client).execute .Dispute m).1 with
              | error err =>
                rw [process_dispute_err e r m err hc3 hd2 hm hx]
                exact Or.inr ⟨.Dispute, m, rfl⟩
              | ok u =>
                cases u
                rw [process_dispute_okk e r m hc3 hd2 hm hx]
                exact Or.inr ⟨.Dispute, m, rfl⟩
            · rw [process_dispute_mismatch e r cid m hc3 hd2 hm hcl]
              exact Or.inl rfl
      · by_cases hc4 : r.command = "resolve"
        · by_cases hd : scontains e.dispute_record r.tx
          · cases hm : mget e.tx_record r.tx with
            | none =>
              rw [process_resolve_notfound e r hc4 hd hm]
              exact Or.inl rfl
            | some cm =>
              obtain ⟨cid, m⟩ := cm
              by_cases hcl : cid = r.client
              · subst hcl
                cases hx : ((e.get_account r.client).execute .Resolve m).1 with
                | error err =>
                  rw [process_resolve_err e r m err hc4 hd hm hx]
                  exact Or.inr ⟨.Resolve, m, rfl⟩
                | ok u =>
                  cases u
                  rw [process_resolve_okk e r m hc4 hd hm hx]
                  exact Or.inr ⟨.Resolve, m, rfl⟩
              · rw [process_resolve_mismatch e r cid m hc4 hd hm hcl]
                exact Or.inl rfl
          · have hd2 : scontains e.dispute_record r.tx = false := by simpa using hd
            rw [process_resolve_undisputed e r hc4 hd2]
            exact Or.inl rfl
        · by_cases hc5 : r.command = "chargeback"
          · by_cases hd : scontains e.dispute_record r.tx
            · cases hm : mget e.tx_record r.tx with
              | none =>
                rw [process_chargeback_notfound e r hc5 hd hm]
                exact Or.inl rfl
              | some cm =>
                obtain ⟨cid, m⟩ := cm
                by_cases hcl : cid = r.client
                · subst hcl
                  cases hx : ((e.get_account r.client).execute .Chargeback m).1 with
                  | error err =>
                    rw [process_chargeback_err e r m err hc5 hd hm hx]
                    exact Or.inr ⟨.Chargeback, m, rfl⟩
                  | ok u =>
                    cases u
                    rw [process_chargeback_okk e r m hc5 hd hm hx]
                    exact Or.inr ⟨.Chargeback, m, rfl⟩
                · rw [process_chargeback_mismatch e r cid m hc5 hd hm hcl]
                  exact Or.inl rfl
            · have hd2 : scontains e.dispute_record r.tx = false := by simpa using hd
              rw [process_chargeback_undisputed e r hc5 hd2]
              exact Or.inl rfl
          · rw [process_unknown e r hc1 hc2 hc3 hc4 hc5]
            exact Or.inl rfl

/-! Claim theorems. -/

/-- C1: for every sequence of records processed from a freshly created
engine, every account in the accounts map satisfies
`total == available + held` with `available`, `held` and `total` all
non-negative, after every `process` call, whether it succeeded or failed. -/
theorem C1_accounts_invariant (rs : List Record) :
    ∀ p ∈ (Engine.new.processAll rs).accounts,
      p.2.total.toInt = p.2.available.toInt + p.2.held.toInt ∧
      0 ≤ p.2.available.toInt ∧ 0 ≤ p.2.held.toInt ∧ 0 ≤ p.2.total.toInt := by
  intro p hp
  exact (engineInv_reachable rs).1 p hp

/-- Witness for C1 at the engine reached by one 10.0 deposit. -/
theorem C1_accounts_invariant_witness :
    (Decimal.mk 100000 false).toInt =
        (Decimal.mk 100000 false).toInt + (Decimal.mk 0 false).toInt ∧
      0 ≤ (Decimal.mk 100000 false).toInt ∧ 0 ≤ (Decimal.mk 0 false).toInt ∧
      0 ≤ (Decimal.mk 100000 false).toInt :=
  C1_accounts_invariant [⟨"deposit", 1, 1, some ⟨100000, false⟩⟩]
    (1, ⟨1, false, ⟨100000, false⟩, ⟨100000, false⟩, ⟨0, false⟩⟩) (by decide)

/-- C2: a locked account is frozen: any `process` call leaves its entry in
the accounts map unchanged (so balances and the lock flag are untouched),
and `Account::execute` on a locked account fails with `AccountLocked` and
returns the account unchanged. -/
theorem C2_locked_account_frozen :
    (∀ (e : Engine) (r : Record) (c : Nat) (a : Account),
        mget e.accounts c = some a → a.locked = true →
        mget ((e.process r).2).accounts c = some a) ∧
    (∀ (a : Account) (op : Operation) (m : Decimal),
        a.locked = true → a.execute op m = (.error .AccountLocked, a)) := by
  constructor
  · intro e r c a hget hl
    rcases process_accounts_shape e r with hs | ⟨op, m, hs⟩
    · rw [hs]
      exact hget
    · rw [hs]
      by_cases hc : r.client = c
      · subst hc
        have hga : e.get_account r.client = a := by
          unfold Engine.get_account
          rw [hget]
          rfl
        rw [hga, execute_locked a op m hl]
        exact mget_mset_self e.accounts r.client a
      · rw [mget_mset_of_ne e.accounts r.client c _ hc]
        exact hget
  · intro a op m hl
    exact execute_locked a op m hl

/-- Witness for C2: a deposit routed at a locked account changes nothing. -/
theorem C2_locked_account_frozen_witness :
    mget (((Engine.mk [(1, ⟨1, true, ⟨50000, false⟩, ⟨20000, false⟩, ⟨30000, false⟩⟩)] [] []).process
        ⟨"deposit", 1, 7, some ⟨10000, false⟩⟩).2).accounts 1 =
      some ⟨1, true, ⟨50000, false⟩, ⟨20000, false⟩, ⟨30000, false⟩⟩ ∧
    Account.execute ⟨1, true, ⟨50000, false⟩, ⟨20000, false⟩, ⟨30000, false⟩⟩ .Deposit ⟨10000, false⟩
      = (.error .AccountLocked, ⟨1, true, ⟨50000, false⟩, ⟨20000, false⟩, ⟨30000, false⟩⟩) :=
  ⟨C2_locked_account_frozen.1 _ _ 1 _ (by decide) rfl,
   C2_locked_account_frozen.2 _ .Deposit _ rfl⟩

/-- C8: on an account satisfying the balance invariant (with `total` in
range) and a non-negative amount, `withdraw` fails with
`InsufficientFunds` exactly when the amount exceeds `available`, and
otherwise decreases `total` and `available` by the amount, the two
unchecked subtractions staying non-negative and in range. -/
theorem C8_withdraw_no_overflow (a : Account) (m : Decimal)
    (h0 : a.total.toInt = a.available.toInt + a.held.toInt)
    (_h1 : 0 ≤ a.available.toInt) (h2 : 0 ≤ a.held.toInt) (_h3 : 0 ≤ a.total.toInt)
    (h4 : a.total.InRange) (hm : 0 ≤ m.toInt) :
    (a.available.toInt < m.toInt →
      a.withdraw m = (.error .InsufficientFunds, a)) ∧
    (m.toInt ≤ a.available.toInt →
      a.withdraw m = (.ok (), { a with total := a.total.sub m,
                                       available := a.available.sub m }) ∧
      (a.withdraw m).2.total.toInt = a.total.toInt - m.toInt ∧
      (a.withdraw m).2.available.toInt = a.available.toInt - m.toInt ∧
      0 ≤ (a.total.sub m).toInt ∧ (a.total.sub m).InRange ∧
      0 ≤ (a.available.sub m).toInt ∧ (a.available.sub m).InRange) := by
  have hmag : (a.total.mag : Int) ≤ ((maxMantissa : Nat) : Int) := by exact_mod_cast h4
  have hlemag := Decimal.toInt_le_mag a.total
  constructor
  · intro hg
    unfold Account.withdraw
    rw [if_pos hg]
  · intro hg
    have hng : ¬ a.available.toInt < m.toInt := by omega
    have heq : a.withdraw m = (.ok (), { a with total := a.total.sub m,
                                                available := a.available.sub m }) := by
      unfold Account.withdraw
      rw [if_neg hng]
    refine ⟨heq, ?_, ?_, ?_, ?_, ?_, ?_⟩
    · rw [heq]
      show (a.total.sub m).toInt = a.total.toInt - m.toInt
      unfold Decimal.sub
      rw [Decimal.toInt_ofInt]
    · rw [heq]
      show (a.available.sub m).toInt = a.available.toInt - m.toInt
      unfold Decimal.sub
      rw [Decimal.toInt_ofInt]
    · unfold Decimal.sub
      rw [Decimal.toInt_ofInt]
      omega
    · unfold Decimal.InRange Decimal.sub
      rw [Decimal.mag_ofInt]
      omega
    · unfold Decimal.sub
      rw [Decimal.toInt_ofInt]
      omega
    · unfold Decimal.InRange Decimal.sub
      rw [Decimal.mag_ofInt]
      omega

/-- Witness for C8: withdrawing 3.0 from available 7.0 (total 10.0). -/
theorem C8_withdraw_no_overflow_witness :
    Account.withdraw ⟨1, false, ⟨100000, false⟩, ⟨70000, false⟩, ⟨30000, false⟩⟩ ⟨30000, false⟩
      = (.ok (), { (⟨1, false, ⟨100000, false⟩, ⟨70000, false⟩, ⟨30000, false⟩⟩ : Account) with
          total := Decimal.sub ⟨100000, false⟩ ⟨30000, false⟩,
          available := Decimal.sub ⟨70000, false⟩ ⟨30000, false⟩ }) ∧
    0 ≤ (Decimal.sub ⟨100000, false⟩ ⟨30000, false⟩).toInt ∧
    (Decimal.sub ⟨100000, false⟩ ⟨30000, false⟩).InRange :=
  have h := (C8_withdraw_no_overflow
      ⟨1, false, ⟨100000, false⟩, ⟨70000, false⟩, ⟨30000, false⟩⟩ ⟨30000, false⟩
      (by decide) (by decide) (by decide) (by decide) (by decide) (by decide)).2 (by decide)
  ⟨h.1, h.2.2.2.1, h.2.2.2.2.1⟩

/-- C10: on an unlocked account, `execute` rejects the amount with
`InvalidAmount` exactly when its sign flag is negative; a negative zero
(sign flag set, value zero, hence not numerically below zero) is rejected
while plain zero is not. -/
theorem C10_sign_flag_check (a : Account) (op : Operation) (m : Decimal)
    (hl : a.locked = false) :
    ((a.execute op m).1 = .error .InvalidAmount ↔ m.is_sign_negative = true) ∧
    Decimal.negZero.is_sign_negative = true ∧
    Decimal.negZero.toInt = 0 ∧
    ¬ Decimal.negZero.toInt < 0 ∧
    Decimal.zero.is_sign_negative = false := by
  refine ⟨?_, rfl, by decide, by decide, rfl⟩
  by_cases hn : m.is_sign_negative
  · rw [execute_neg a op m hl hn]
    simp [hn]
  · have hn2 : m.is_sign_negative = false := by simpa using hn
    constructor
    · intro hcontra
      rcases op_errors a op m hl hn2 with h | h | h | h <;> rw [hcontra] at h <;> simp at h
    · intro h
      rw [h] at hn2
      simp at hn2

/-- Witness for C10: a negative amount on a fresh account is rejected, and
negative zero carries the negative sign flag. -/
theorem C10_sign_flag_check_witness :
    ((Account.new 1).execute .Deposit ⟨123, true⟩).1 = .error .InvalidAmount ∧
    Decimal.negZero.is_sign_negative = true :=
  ⟨(C10_sign_flag_check (Account.new 1) .Deposit ⟨123, true⟩ rfl).1.mpr rfl,
   (C10_sign_flag_check (Account.new 1) .Deposit ⟨123, true⟩ rfl).2.1⟩

/-- C3: the dispute handler checks, in order: `AlreadyDisputed` on the
dispute set, `TransactionNotFound` on the history map, `ClientMismatch` on
the stored client id; otherwise it runs the `Dispute` ledger operation with
the stored historical amount (not any amount carried by the record) and
adds the tx id to the dispute set only on success. -/
theorem C3_dispute_branch (e : Engine) (r : Record) (hc : r.command = "dispute") :
    (scontains e.dispute_record r.tx = true →
      e.process r = (.error .AlreadyDisputed, e)) ∧
    (scontains e.dispute_record r.tx = false →
      mget e.tx_record r.tx = none →
      e.process r = (.error .TransactionNotFound, e)) ∧
    (∀ cid m, scontains e.dispute_record r.tx = false →
      mget e.tx_record r.tx = some (cid, m) → cid ≠ r.client →
      e.process r = (.error .ClientMismatch, e)) ∧
    (∀ m, scontains e.dispute_record r.tx = false →
      mget e.tx_record r.tx = some (r.client, m) →
      (e.process r).1 = ((e.get_account r.client).execute .Dispute m).1 ∧
      ((e.process r).2).accounts =
        mset e.accounts r.client ((e.get_account r.client).execute .Dispute m).2 ∧
      ((e.process r).2).tx_record = e.tx_record ∧
      (((e.get_account r.client).execute .Dispute m).1 = .ok () →
        ((e.process r).2).dispute_record = sinsert e.dispute_record r.tx) ∧
      (∀ err, ((e.get_account r.client).execute .Dispute m).1 = .error err →
        ((e.process r).2).dispute_record = e.dispute_record)) := by
  refine ⟨?_, ?_, ?_, ?_⟩
  · intro hd
    exact process_dispute_already e r hc hd
  · intro hd hm
    exact process_dispute_notfound e r hc hd hm
  · intro cid m hd hm hne
    exact process_dispute_mismatch e r cid m hc hd hm hne
  · intro m hd hm
    cases hx : ((e.get_account r.client).execute .Dispute m).1 with
    | error err =>
      rw [process_dispute_err e r m err hc hd hm hx]
      refine ⟨rfl, rfl, rfl, ?_, ?_⟩
      · intro hcontra
        exact absurd hcontra (by simp)
      · intro err2 hx2
        rfl
    | ok u =>
      cases u
      rw [process_dispute_okk e r m hc hd hm hx]
      refine ⟨rfl, rfl, rfl, ?_, ?_⟩
      · intro hok
        rfl
      · intro err2 hx2
        exact absurd hx2 (by simp)

/-- Witness for C3: the already-disputed and full-run cases at concrete
inputs. -/
theorem C3_dispute_branch_witness :
    (Engine.mk [] [] [5]).process ⟨"dispute", 1, 5, none⟩ =
      (.error .AlreadyDisputed, Engine.mk [] [] [5]) ∧
    ((Engine.mk [(1, ⟨1, false, ⟨100000, false⟩, ⟨100000, false⟩, ⟨0, false⟩⟩)]
        [(1, (1, ⟨100000, false⟩))] []).process ⟨"dispute", 1, 1, none⟩).1 =
      (((Engine.mk [(1, ⟨1, false, ⟨100000, false⟩, ⟨100000, false⟩, ⟨0, false⟩⟩)]
        [(1, (1, ⟨100000, false⟩))] []).get_account 1).execute .Dispute ⟨100000, false⟩).1 :=
  ⟨(C3_dispute_branch (Engine.mk [] [] [5]) ⟨"dispute", 1, 5, none⟩ rfl).1 (by decide),
   ((C3_dispute_branch _ ⟨"dispute", 1, 1, none⟩ rfl).2.2.2 ⟨100000, false⟩
      (by decide) (by decide)).1⟩

/-- C5: chargeback on an unlocked account (with a validated amount) fails
with `InsufficientHeldFunds` when the amount exceeds `held`, and otherwise
subtracts the amount from `total` and `held` and locks the account; the
concrete scenario deposit(1,1,10.0), dispute(1,1), chargeback(1,1) ends
with the 0/0/0/locked account and a later deposit for client 1 fails with
`AccountLocked` changing nothing. -/
theorem C5_chargeback (a : Account) (m : Decimal)
    (hl : a.locked = false) (hn : m.is_sign_negative = false) :
    ((a.held.toInt < m.toInt →
      a.execute .Chargeback m = (.error .InsufficientHeldFunds, a)) ∧
    (m.toInt ≤ a.held.toInt →
      a.execute .Chargeback m =
        (.ok (), { a with total := a.total.sub m, held := a.held.sub m,
                          locked := true }))) ∧
    (mget (Engine.new.processAll
        [⟨"deposit", 1, 1, some ⟨100000, false⟩⟩, ⟨"dispute", 1, 1, none⟩,
         ⟨"chargeback", 1, 1, none⟩]).accounts 1 =
      some ⟨1, true, ⟨0, false⟩, ⟨0, false⟩, ⟨0, false⟩⟩ ∧
    (Engine.new.processAll
        [⟨"deposit", 1, 1, some ⟨100000, false⟩⟩, ⟨"dispute", 1, 1, none⟩,
         ⟨"chargeback", 1, 1, none⟩]).process ⟨"deposit", 1, 2, some ⟨50000, false⟩⟩ =
      (.error .AccountLocked,
       Engine.new.processAll
        [⟨"deposit", 1, 1, some ⟨100000, false⟩⟩, ⟨"dispute", 1, 1, none⟩,
         ⟨"chargeback", 1, 1, none⟩])) := by
  refine ⟨⟨?_, ?_⟩, by decide, by decide⟩
  · intro hg
    rw [execute_run a .Chargeback m hl hn]
    show a.chargeback m = _
    unfold Account.chargeback
    rw [if_pos hg]
  · intro hg
    have hng : ¬ a.held.toInt < m.toInt := by omega
    rw [execute_run a .Chargeback m hl hn]
    show a.chargeback m = _
    unfold Account.chargeback
    rw [if_neg hng]

/-- Witness for C5: charging back the held 10.0 locks the account and
empties it. -/
theorem C5_chargeback_witness :
    Account.execute ⟨1, false, ⟨100000, false⟩, ⟨0, false⟩, ⟨100000, false⟩⟩ .Chargeback
        ⟨100000, false⟩ =
      (.ok (), { (⟨1, false, ⟨100000, false⟩, ⟨0, false⟩, ⟨100000, false⟩⟩ : Account) with
        total := Decimal.sub ⟨100000, false⟩ ⟨100000, false⟩,
        held := Decimal.sub ⟨100000, false⟩ ⟨100000, false⟩,
        locked := true }) :=
  ((C5_chargeback ⟨1, false, ⟨100000, false⟩, ⟨0, false⟩, ⟨100000, false⟩⟩ ⟨100000, false⟩
    rfl rfl).1).2 (by decide)

/-- C6: a deposit with a missing amount fails with `MissingAmount` leaving
the engine unchanged (no account creation), and on any reachable engine a
dispute whose tx id has no history entry fails with `TransactionNotFound`
leaving the engine unchanged (no account creation either). -/
theorem C6_no_account_creation :
    (∀ (e : Engine) (r : Record), r.command = "deposit" → r.amount = none →
      e.process r = (.error .MissingAmount, e)) ∧
    (∀ (rs : List Record) (r : Record), r.command = "dispute" →
      mget (Engine.new.processAll rs).tx_record r.tx = none →
      (Engine.new.processAll rs).process r =
        (.error .TransactionNotFound, Engine.new.processAll rs)) := by
  constructor
  · intro e r hc ha
    exact process_deposit_missing e r hc ha
  · intro rs r hc hm
    have hd : scontains (Engine.new.processAll rs).dispute_record r.tx = false := by
      by_cases hcontra : scontains (Engine.new.processAll rs).dispute_record r.tx
      · have := (engineInv_reachable rs).2.1 r.tx hcontra
        rw [hm] at this
        simp at this
      · simpa using hcontra
    exact process_dispute_notfound _ r hc hd hm

/-- Witness for C6: scenario E on the fresh engine (tx 99 never deposited)
and a bare deposit without amount. -/
theorem C6_no_account_creation_witness :
    Engine.new.process ⟨"deposit", 1, 1, none⟩ = (.error .MissingAmount, Engine.new) ∧
    Engine.new.process ⟨"dispute", 1, 99, none⟩ =
      (.error .TransactionNotFound, Engine.new) :=
  ⟨C6_no_account_creation.1 Engine.new ⟨"deposit", 1, 1, none⟩ rfl rfl,
   C6_no_account_creation.2 [] ⟨"dispute", 1, 99, none⟩ rfl rfl⟩

/-- C4 counterexample: on an account whose `available` exceeds its `total`
(representable in the model, constructible in the source since the fields
are public), `deposit` fails with `Overflow` after having already assigned
the new `total`, so the account is not returned identical to its pre-call
state: the claim as stated over every account is false. -/
theorem C4_deposit_not_atomic_counterexample :
    (Account.deposit ⟨1, false, ⟨0, false⟩, ⟨maxMantissa, false⟩, ⟨0, false⟩⟩
        ⟨1, false⟩).1 = .error .Overflow ∧
    (Account.deposit ⟨1, false, ⟨0, false⟩, ⟨maxMantissa, false⟩, ⟨0, false⟩⟩
        ⟨1, false⟩).2.total ≠ (⟨0, false⟩ : Decimal) ∧
    (Account.deposit ⟨1, false, ⟨0, false⟩, ⟨maxMantissa, false⟩, ⟨0, false⟩⟩
        ⟨1, false⟩).2 ≠ ⟨1, false, ⟨0, false⟩, ⟨maxMantissa, false⟩, ⟨0, false⟩⟩ := by
  refine ⟨by decide, by decide, by decide⟩

/-- C4 (amended): on an account whose `available` is non-negative and at
most `total` (as for any account satisfying the balance invariant), with a
non-negative amount, `deposit` either increases both `total` and
`available` by the amount, or fails with `Overflow` returning the account
unchanged. -/
theorem C4_deposit_atomic (a : Account) (m : Decimal)
    (hm : 0 ≤ m.toInt) (hav : 0 ≤ a.available.toInt)
    (havt : a.available.toInt ≤ a.total.toInt) :
    ((a.deposit m).1 = .ok () →
      (a.deposit m).2.total.toInt = a.total.toInt + m.toInt ∧
      (a.deposit m).2.available.toInt = a.available.toInt + m.toInt ∧
      (a.deposit m).2.held = a.held ∧ (a.deposit m).2.locked = a.locked ∧
      (a.deposit m).2.id = a.id) ∧
    ((a.deposit m).1 ≠ .ok () → a.deposit m = (.error .Overflow, a)) := by
  constructor
  · intro hok
    exact deposit_ok_shape a m hok
  · intro hne
    cases hc1 : a.total.checked_add m with
    | none =>
      unfold Account.deposit
      rw [hc1]
    | some t =>
      exfalso
      have hc2 : (Decimal.checked_add { a with total := t }.available m).isSome = true := by
        refine checked_add_mono a.available a.total m hav havt hm ?_
        rw [hc1]
        rfl
      cases hc2e : Decimal.checked_add { a with total := t }.available m with
      | none =>
        rw [hc2e] at hc2
        simp at hc2
      | some v =>
        apply hne
        unfold Account.deposit
        rw [hc1]
        simp only [hc2e]

/-- Witness for the amended C4: a 10.0 deposit on a balanced account, and
an overflowing deposit left unapplied. -/
theorem C4_deposit_atomic_witness :
    (Account.deposit ⟨1, false, ⟨50000, false⟩, ⟨20000, false⟩, ⟨30000, false⟩⟩
        ⟨100000, false⟩).2.total.toInt = (150000 : Int) ∧
    Account.deposit ⟨1, false, ⟨maxMantissa, false⟩, ⟨maxMantissa, false⟩, ⟨0, false⟩⟩
        ⟨1, false⟩ =
      (.error .Overflow,
       ⟨1, false, ⟨maxMantissa, false⟩, ⟨maxMantissa, false⟩, ⟨0, false⟩⟩) :=
  ⟨by
    have h := ((C4_deposit_atomic
        ⟨1, false, ⟨50000, false⟩, ⟨20000, false⟩, ⟨30000, false⟩⟩ ⟨100000, false⟩
        (by decide) (by decide) (by decide)).1 (by decide)).1
    rw [h]
    decide,
   (C4_deposit_atomic
      ⟨1, false, ⟨maxMantissa, false⟩, ⟨maxMantissa, false⟩, ⟨0, false⟩⟩ ⟨1, false⟩
      (by decide) (by decide) (by decide)).2 (by decide)⟩

/-- C9: on every reachable engine state, every tx id in the dispute set has
a history entry and every history entry points at an existing account;
consequently the `TransactionNotFound` branch of the resolve and
chargeback handlers cannot fire. -/
theorem C9_bookkeeping_closed (rs : List Record) :
    (∀ t, scontains (Engine.new.processAll rs).dispute_record t = true →
      (mget (Engine.new.processAll rs).tx_record t).isSome = true) ∧
    (∀ t cm, mget (Engine.new.processAll rs).tx_record t = some cm →
      (mget (Engine.new.processAll rs).accounts cm.1).isSome = true) ∧
    (∀ r : Record, r.command = "resolve" ∨ r.command = "chargeback" →
      ((Engine.new.processAll rs).process r).1 ≠ .error .TransactionNotFound) := by
  obtain ⟨h1, h2, h3⟩ := engineInv_reachable rs
  refine ⟨h2, h3, ?_⟩
  intro r hcmd
  rcases hcmd with hc | hc
  · by_cases hd : scontains (Engine.new.processAll rs).dispute_record r.tx
    · cases hm : mget (Engine.new.processAll rs).tx_record r.tx with
      | none =>
        have := h2 r.tx hd
        rw [hm] at this
        simp at this
      | some cm =>
        obtain ⟨cid, m⟩ := cm
        by_cases hcl : cid = r.client
        · subst hcl
          cases hx : (((Engine.new.processAll rs).get_account r.client).execute .Resolve m).1 with
          | error err =>
            rw [process_resolve_err _ r m err hc hd hm hx]
            intro hcontra
            simp only [Prod.fst] at hcontra
            cases hcontra
            exact execute_ne_tnf _ .Resolve m hx
          | ok u =>
            cases u
            rw [process_resolve_okk _ r m hc hd hm hx]
            simp
        · rw [process_resolve_mismatch _ r cid m hc hd hm hcl]
          simp
    · have hd2 : scontains (Engine.new.processAll rs).dispute_record r.tx = false := by
        simpa using hd
      rw [process_resolve_undisputed _ r hc hd2]
      simp
  · by_cases hd : scontains (Engine.new.processAll rs).dispute_record r.tx
    · cases hm : mget (Engine.new.processAll rs).tx_record r.tx with
      | none =>
        have := h2 r.tx hd
        rw [hm] at this
        simp at this
      | some cm =>
        obtain ⟨cid, m⟩ := cm
        by_cases hcl : cid = r.client
        · subst hcl
          cases hx : (((Engine.new.processAll rs).get_account r.client).execute .Chargeback m).1 with
          | error err =>
            rw [process_chargeback_err _ r m err hc hd hm hx]
            intro hcontra
            simp only [Prod.fst] at hcontra
            cases hcontra
            exact execute_ne_tnf _ .Chargeback m hx
          | ok u =>
            cases u
            rw [process_chargeback_okk _ r m hc hd hm hx]
            simp
        · rw [process_chargeback_mismatch _ r cid m hc hd hm hcl]
          simp
    · have hd2 : scontains (Engine.new.processAll rs).dispute_record r.tx = false := by
        simpa using hd
      rw [process_chargeback_undisputed _ r hc hd2]
      simp

/-- Witness for C9 after a deposit and a dispute: the disputed tx has a
history entry, the entry has an account, and a resolve cannot fail with
`TransactionNotFound`. -/
theorem C9_bookkeeping_closed_witness :
    (mget (Engine.new.processAll
        [⟨"deposit", 1, 1, some ⟨100000, false⟩⟩, ⟨"dispute", 1, 1, none⟩]).tx_record
      1).isSome = true ∧
    (mget (Engine.new.processAll
        [⟨"deposit", 1, 1, some ⟨100000, false⟩⟩, ⟨"dispute", 1, 1, none⟩]).accounts
      1).isSome = true ∧
    ((Engine.new.processAll
        [⟨"deposit", 1, 1, some ⟨100000, false⟩⟩, ⟨"dispute", 1, 1, none⟩]).process
      ⟨"resolve", 2, 1, none⟩).1 ≠ .error .TransactionNotFound :=
  ⟨(C9_bookkeeping_closed [⟨"deposit", 1, 1, some ⟨100000, false⟩⟩,
      ⟨"dispute", 1, 1, none⟩]).1 1 (by decide),
   (C9_bookkeeping_closed [⟨"deposit", 1, 1, some ⟨100000, false⟩⟩,
      ⟨"dispute", 1, 1, none⟩]).2.1 1 (1, ⟨100000, false⟩) (by decide),
   (C9_bookkeeping_closed [⟨"deposit", 1, 1, some ⟨100000, false⟩⟩,
      ⟨"dispute", 1, 1, none⟩]).2.2 ⟨"resolve", 2, 1, none⟩ (Or.inl rfl)⟩

/-! Step characterizations of successful `process` calls, used for the
round-trip property. -/

theorem step_deposit_ok (e e1 : Engine) (c t : Nat) (m : Decimal)
    (h : e.process ⟨"deposit", c, t, some m⟩ = (.ok (), e1)) :
    ((e.get_account c).deposit m).1 = .ok () ∧
    e1.accounts = mset e.accounts c ((e.get_account c).deposit m).2 ∧
    e1.tx_record = mset e.tx_record t (c, m) ∧
    e1.dispute_record = e.dispute_record ∧
    mget e1.accounts c = some ((e.get_account c).deposit m).2 := by
  cases hx : ((e.get_account c).execute .Deposit m).1 with
  | error err =>
    rw [process_deposit_err e ⟨"deposit", c, t, some m⟩ m err rfl rfl hx] at h
    exact absurd h (by simp)
  | ok u =>
    cases u
    rw [process_deposit_okk e ⟨"deposit", c, t, some m⟩ m rfl rfl hx] at h
    obtain ⟨hl, hn⟩ := execute_ok_unlocked _ .Deposit m hx
    have hrun : (e.get_account c).execute .Deposit m = (e.get_account c).deposit m :=
      execute_run _ .Deposit m hl hn
    have he1 : e1 = { e with
        accounts := mset e.accounts c ((e.get_account c).execute .Deposit m).2,
        tx_record := mset e.tx_record t (c, m) } :=
      (congrArg Prod.snd h).symm
    refine ⟨by rw [← hrun]; exact hx, ?_, ?_, ?_, ?_⟩
    · simp only [he1]
      rw [hrun]
    · simp only [he1]
    · simp only [he1]
    · simp only [he1]
      rw [hrun]
      exact mget_mset_self _ _ _

theorem step_dispute_ok (e e1 : Engine) (c t : Nat)
    (h : e.process ⟨"dispute", c, t, none⟩ = (.ok (), e1)) :
    ∃ mh : Decimal,
      mget e.tx_record t = some (c, mh) ∧
      ((e.get_account c).dispute mh).1 = .ok () ∧
      e1.accounts = mset e.accounts c ((e.get_account c).dispute mh).2 ∧
      e1.tx_record = e.tx_record ∧
      mget e1.accounts c = some ((e.get_account c).dispute mh).2 := by
  by_cases hd : scontains e.dispute_record t
  · rw [process_dispute_already e ⟨"dispute", c, t, none⟩ rfl hd] at h
    exact absurd h (by simp)
  · have hdf : scontains e.dispute_record t = false := by simpa using hd
    cases hm : mget e.tx_record t with
    | none =>
      rw [process_dispute_notfound e ⟨"dispute", c, t, none⟩ rfl hdf hm] at h
      exact absurd h (by simp)
    | some cm =>
      obtain ⟨cid, mh⟩ := cm
      by_cases hcl : cid = c
      · subst hcl
        cases hx : ((e.get_account cid).execute .Dispute mh).1 with
        | error err =>
          rw [process_dispute_err e ⟨"dispute", cid, t, none⟩ mh err rfl hdf hm hx] at h
          exact absurd h (by simp)
        | ok u =>
          cases u
          rw [process_dispute_okk e ⟨"dispute", cid, t, none⟩ mh rfl hdf hm hx] at h
          obtain ⟨hl, hn⟩ := execute_ok_unlocked _ .Dispute mh hx
          have hrun : (e.get_account cid).execute .Dispute mh = (e.get_account cid).dispute mh :=
            execute_run _ .Dispute mh hl hn
          have he1 : e1 = { e with
              accounts := mset e.accounts cid ((e.get_account cid).execute .Dispute mh).2,
              dispute_record := sinsert e.dispute_record t } :=
            (congrArg Prod.snd h).symm
          refine ⟨mh, rfl, by rw [← hrun]; exact hx, ?_, ?_, ?_⟩
          · simp only [he1]
            rw [hrun]
          · simp only [he1]
          · simp only [he1]
            rw [hrun]
            exact mget_mset_self _ _ _
      · rw [process_dispute_mismatch e ⟨"dispute", c, t, none⟩ cid mh rfl hdf hm hcl] at h
        exact absurd h (by simp)

theorem step_resolve_ok (e e1 : Engine) (c t : Nat)
    (h : e.process ⟨"resolve", c, t, none⟩ = (.ok (), e1)) :
    ∃ mh : Decimal,
      mget e.tx_record t = some (c, mh) ∧
      ((e.get_account c).resolve mh).1 = .ok () ∧
      e1.accounts = mset e.accounts c ((e.get_account c).resolve mh).2 ∧
      e1.tx_record = e.tx_record ∧
      mget e1.accounts c = some ((e.get_account c).resolve mh).2 := by
  by_cases hd : scontains e.dispute_record t
  · cases hm : mget e.tx_record t with
    | none =>
      rw [process_resolve_notfound e ⟨"resolve", c, t, none⟩ rfl hd hm] at h
      exact absurd h (by simp)
    | some cm =>
      obtain ⟨cid, mh⟩ := cm
      by_cases hcl : cid = c
      · subst hcl
        cases hx : ((e.get_account cid).execute .Resolve mh).1 with
        | error err =>
          rw [process_resolve_err e ⟨"resolve", cid, t, none⟩ mh err rfl hd hm hx] at h
          exact absurd h (by simp)
        | ok u =>
          cases u
          rw [process_resolve_okk e ⟨"resolve", cid, t, none⟩ mh rfl hd hm hx] at h
          obtain ⟨hl, hn⟩ := execute_ok_unlocked _ .Resolve mh hx
          have hrun : (e.get_account cid).execute .Resolve mh = (e.get_account cid).resolve mh :=
            execute_run _ .Resolve mh hl hn
          have he1 : e1 = { e with
              accounts := mset e.accounts cid ((e.get_account cid).execute .Resolve mh).2,
              dispute_record := sremove e.dispute_record t } :=
            (congrArg Prod.snd h).symm
          refine ⟨mh, rfl, by rw [← hrun]; exact hx, ?_, ?_, ?_⟩
          · simp only [he1]
            rw [hrun]
          · simp only [he1]
          · simp only [he1]
            rw [hrun]
            exact mget_mset_self _ _ _
      · rw [process_resolve_mismatch e ⟨"resolve", c, t, none⟩ cid mh rfl hd hm hcl] at h
        exact absurd h (by simp)
  · have hdf : scontains e.dispute_record t = false := by simpa using hd
    rw [process_resolve_undisputed e ⟨"resolve", c, t, none⟩ rfl hdf] at h
    exact absurd h (by simp)

/-- C7: a successful deposit followed by a successful dispute and a
successful resolve of the same tx returns the client account to the exact
available/held split it had before the dispute, with `total` unchanged by
both the dispute and the resolve. -/
theorem C7_dispute_resolve_round_trip (e e1 e2 e3 : Engine) (c t : Nat) (m : Decimal)
    (h1 : e.process ⟨"deposit", c, t, some m⟩ = (.ok (), e1))
    (h2 : e1.process ⟨"dispute", c, t, none⟩ = (.ok (), e2))
    (h3 : e2.process ⟨"resolve", c, t, none⟩ = (.ok (), e3)) :
    ∃ a1 a2 a3 : Account,
      mget e1.accounts c = some a1 ∧
      mget e2.accounts c = some a2 ∧
      mget e3.accounts c = some a3 ∧
      a2.total = a1.total ∧ a3.total = a1.total ∧
      a3.available.toInt = a1.available.toInt ∧
      a3.held.toInt = a1.held.toInt := by
  obtain ⟨hdep, hacc1, htx1, hdis1, hget1⟩ := step_deposit_ok e e1 c t m h1
  obtain ⟨m2, hm2, hdisok, hacc2, htx2, hget2⟩ := step_dispute_ok e1 e2 c t h2
  obtain ⟨m3, hm3, hresok, hacc3, htx3, hget3⟩ := step_resolve_ok e2 e3 c t h3
  have hm2e : m2 = m := by
    rw [htx1, mget_mset_self] at hm2
    exact ((Prod.mk.injEq c m c m2).mp (Option.some.inj hm2)).2.symm
  rw [hm2e] at hdisok hacc2 hget2
  have hm3e : m3 = m := by
    rw [htx2, htx1, mget_mset_self] at hm3
    exact ((Prod.mk.injEq c m c m3).mp (Option.some.inj hm3)).2.symm
  rw [hm3e] at hresok hacc3 hget3
  have hb1 : e1.get_account c = ((e.get_account c).deposit m).2 := by
    unfold Engine.get_account
    rw [hget1]
    rfl
  have hb2 : e2.get_account c = ((e1.get_account c).dispute m).2 := by
    unfold Engine.get_account
    rw [hget2]
    rfl
  have hsd := (dispute_ok_shape (e1.get_account c) m hdisok).2
  have hsr := (resolve_ok_shape (e2.get_account c) m hresok).2
  rw [hb1] at hsd
  rw [hb1] at hb2
  rw [hb2] at hsr
  rw [hsd] at hsr
  rw [hsd] at hb2
  refine ⟨((e.get_account c).deposit m).2, ((e1.get_account c).dispute m).2,
          ((e2.get_account c).resolve m).2, hget1, hget2, hget3, ?_, ?_, ?_, ?_⟩
  · simp only [hb1, hsd]
  · simp only [hb2, hsr]
  · rw [hb2, hsr]
    show ((((e.get_account c).deposit m).2.available.sub m).add m).toInt
        = ((e.get_account c).deposit m).2.available.toInt
    simp only [Decimal.add, Decimal.sub, Decimal.toInt_ofInt]
    omega
  · rw [hb2, hsr]
    show ((((e.get_account c).deposit m).2.held.add m).sub m).toInt
        = ((e.get_account c).deposit m).2.held.toInt
    simp only [Decimal.add, Decimal.sub, Decimal.toInt_ofInt]
    omega

/-- Witness for C7: deposit(1,1,10.0), dispute(1,1), resolve(1,1) from the
fresh engine (scenario C). -/
theorem C7_dispute_resolve_round_trip_witness :
    ∃ a1 a2 a3 : Account,
      mget (Engine.mk [(1, ⟨1, false, ⟨100000, false⟩, ⟨100000, false⟩, ⟨0, false⟩⟩)]
          [(1, (1, ⟨100000, false⟩))] []).accounts 1 = some a1 ∧
      mget (Engine.mk [(1, ⟨1, false, ⟨100000, false⟩, ⟨0, false⟩, ⟨100000, false⟩⟩)]
          [(1, (1, ⟨100000, false⟩))] [1]).accounts 1 = some a2 ∧
      mget (Engine.mk [(1, ⟨1, false, ⟨100000, false⟩, ⟨100000, false⟩, ⟨0, false⟩⟩)]
          [(1, (1, ⟨100000, false⟩))] []).accounts 1 = some a3 ∧
      a2.total = a1.total ∧ a3.total = a1.total ∧
      a3.available.toInt = a1.available.toInt ∧
      a3.held.toInt = a1.held.toInt :=
  C7_dispute_resolve_round_trip Engine.new
    (Engine.mk [(1, ⟨1, false, ⟨100000, false⟩, ⟨100000, false⟩, ⟨0, false⟩⟩)]
      [(1, (1, ⟨100000, false⟩))] [])
    (Engine.mk [(1, ⟨1, false, ⟨100000, false⟩, ⟨0, false⟩, ⟨100000, false⟩⟩)]
      [(1, (1, ⟨100000, false⟩))] [1])
    (Engine.mk [(1, ⟨1, false, ⟨100000, false⟩, ⟨100000, false⟩, ⟨0, false⟩⟩)]
      [(1, (1, ⟨100000, false⟩))] [])
    1 1 ⟨100000, false⟩ (by decide) (by decide) (by decide)

end TxEngine
